import Mathlib

set_option maxRecDepth 4000

/-!
Verification of the player-risk-service repository.

This file gives a shallow embedding, in Lean 4, of the core components of the
repository (player-name matching, the streaming tool-calling session, the
agent retry wrapper, the top-level fixture loop, the shark agent's response
parsing, and the projections enrichment), together with theorems settling the
frozen claims about them.

Conventions of the embedding:
- Python strings are Lean `String`s; where an algorithm walks a string
  character by character we work on `String.toList`.
- Python floats are modelled as exact rationals (`ℚ`); the algorithms here
  only ever divide small integers, so no claim depends on rounding.
- `datetime` values are modelled as opaque integers (only equality matters).
- Fallible code returns `Except`/`Option`; mutation is modelled by explicit
  state passing.
-/

namespace PlayerRisk

/-! ## src/src/utils/matching.py — PlayerMatcher -/

namespace PlayerMatcher

/-- Character-level model of `str.lower()` composed with Unicode NFD
decomposition followed by removal of combining marks (category Mn), as
performed by `PlayerMatcher.normalize`.  The table covers the Latin-1 and
common Latin-Extended accented letters (both cases map to the lowercase base
letter, since lowering and mark-stripping commute for these characters);
characters outside the table are left to ASCII lowering. -/
def stripAccentChar (c : Char) : Char :=
  match c with
  | 'á' | 'à' | 'â' | 'ä' | 'ã' | 'å' | 'Á' | 'À' | 'Â' | 'Ä' | 'Ã' | 'Å' => 'a'
  | 'é' | 'è' | 'ê' | 'ë' | 'É' | 'È' | 'Ê' | 'Ë' => 'e'
  | 'í' | 'ì' | 'î' | 'ï' | 'Í' | 'Ì' | 'Î' | 'Ï' => 'i'
  | 'ó' | 'ò' | 'ô' | 'ö' | 'õ' | 'Ó' | 'Ò' | 'Ô' | 'Ö' | 'Õ' => 'o'
  | 'ú' | 'ù' | 'û' | 'ü' | 'Ú' | 'Ù' | 'Û' | 'Ü' => 'u'
  | 'ý' | 'Ý' | 'ÿ' => 'y'
  | 'ñ' | 'Ñ' => 'n'
  | 'ç' | 'Ç' => 'c'
  | 'š' | 'Š' => 's'
  | 'ž' | 'Ž' => 'z'
  | 'č' | 'Č' => 'c'
  | 'ř' | 'Ř' => 'r'
  | 'ě' | 'Ě' => 'e'
  | 'ů' | 'Ů' => 'u'
  | _ => c.toLower

/-- A free-standing combining mark (Unicode block U+0300 to U+036F); the
source's NFD pass removes these. -/
def isCombiningMark (c : Char) : Bool :=
  decide (0x300 ≤ c.toNat) && decide (c.toNat ≤ 0x36F)

/-- Punctuation removed by the regex `r"['\-\.]"` in `normalize` (apostrophe,
hyphen, dot). -/
def isStrippedPunct (c : Char) : Bool :=
  c.toNat = 39 || c = '-' || c = '.'

/-- Model of `str.split()` on a character list: split on whitespace, dropping
empty fragments (Python's no-argument `split`). -/
def wordsOf (cs : List Char) : List (List Char) :=
  (cs.foldr
    (fun c acc =>
      if c.isWhitespace then [] :: acc
      else (c :: acc.headD []) :: acc.tail)
    [[]]).filter (fun w => w ≠ [])

/-- Model of `" ".join(words)` on character lists. -/
def joinSpace (ws : List (List Char)) : List Char :=
  List.intercalate [' '] ws

/-- `PlayerMatcher.normalize`: lowercase, strip, NFD-decompose and drop
combining marks, collapse whitespace, then remove apostrophes, hyphens and
dots.  The initial `.strip()` of the source is subsumed by the
split-and-join whitespace collapse, as in Python. -/
def normalize (name : String) : String :=
  if name = "" then ""
  else
    let cs := name.toList.map stripAccentChar
    let cs := cs.filter (fun c => ¬ isCombiningMark c)
    let cs := joinSpace (wordsOf cs)
    let cs := cs.filter (fun c => ¬ isStrippedPunct c)
    String.mk cs

/-- `PlayerMatcher.extract_surname`: the last whitespace token of the
normalized name, or the empty string when there is none. -/
def extract_surname (name : String) : String :=
  String.mk ((wordsOf (normalize name).toList).getLastD [])

/-- Unit substitution cost used by the Levenshtein dynamic program
(`previous_row[j] + (c1 != c2)` in the source). -/
def edCost (x y : Char) : Nat :=
  if x = y then 0 else 1

/-- Inner loop of `PlayerMatcher.levenshtein_distance`: walks the second
string together with consecutive pairs of the previous row, carrying the
last value appended to the current row (`current_row[j]`). The three
candidates are, in the source's order, insertions (`previous_row[j+1] + 1`),
deletions (`current_row[j] + 1`) and substitutions
(`previous_row[j] + (c1 != c2)`). -/
def buildRow (c1 : Char) : List Char → List Nat → Nat → List Nat
  | c2 :: cs, pj :: pj1 :: rest, last =>
    let v := min (pj1 + 1) (min (last + 1) (pj + edCost c1 c2))
    v :: buildRow c1 cs (pj1 :: rest) v
  | _, _, _ => []

/-- Outer loop of `PlayerMatcher.levenshtein_distance`: one row per character
of the first string; each new row starts with `i + 1`, which equals the head
of the previous row plus one. -/
def levRows (s2 : List Char) : List Char → List Nat → List Nat
  | [], prev => prev
  | c1 :: cs, prev =>
    let first := prev.headD 0 + 1
    levRows s2 cs (first :: buildRow c1 s2 prev first)

/-- Body of `PlayerMatcher.levenshtein_distance` after the length-ordering
swap: the `len(s2) == 0` shortcut, then the row dynamic program seeded with
`range(len(s2) + 1)`, returning `previous_row[-1]`. -/
def levBody (s1 s2 : List Char) : Nat :=
  if s2.length = 0 then s1.length
  else (levRows s2 s1 (List.range (s2.length + 1))).getLastD 0

/-- `PlayerMatcher.levenshtein_distance` on character lists: the source first
swaps its arguments when `len(s1) < len(s2)` (a single self-call), then runs
the row dynamic program. -/
def levenshtein_distance (s1 s2 : List Char) : Nat :=
  if s1.length < s2.length then levBody s2 s1 else levBody s1 s2

/-- `PlayerMatcher.similarity_score`: normalized-Levenshtein similarity as an
exact rational; `0` when either normalized name is empty, `1` on normalized
equality, otherwise `1 - distance / max(len(n1), len(n2))`. -/
def similarity_score (name1 name2 : String) : ℚ :=
  let n1 := (normalize name1).toList
  let n2 := (normalize name2).toList
  if n1 = [] ∨ n2 = [] then 0
  else if n1 = n2 then 1
  else 1 - (levenshtein_distance n1 n2 : ℚ) / (max n1.length n2.length : ℚ)

/-- Does `pat` occur at the start of `t`?  Model of the prefix step of
Python's substring test. -/
def startsWithL : List Char → List Char → Bool
  | [], _ => true
  | _ :: _, [] => false
  | a :: as, b :: bs => a = b && startsWithL as bs

/-- Python's `pat in t` contiguous-substring test on character lists. -/
def containsSub (pat : List Char) : List Char → Bool
  | [] => startsWithL pat []
  | c :: ts => startsWithL pat (c :: ts) || containsSub pat ts

/-- Strategy 1 of `PlayerMatcher.is_match`: exact normalized equality. -/
def strategyExact (name1 name2 : String) : Bool :=
  normalize name1 = normalize name2

/-- Strategy 2 of `PlayerMatcher.is_match`: one normalized name is a
substring of the other and the shorter one (`n1` when strictly shorter,
otherwise `n2`) has length at least 5. -/
def strategySubstring (name1 name2 : String) : Bool :=
  let l1 := (normalize name1).toList
  let l2 := (normalize name2).toList
  (containsSub l1 l2 || containsSub l2 l1) &&
    decide (5 ≤ (if l1.length < l2.length then l1 else l2).length)

/-- The token list `n.split()` of a normalized name. -/
def nameParts (name : String) : List (List Char) :=
  wordsOf (normalize name).toList

/-- `parts[0][0]`: the first character of the leading token.  The defaults
are unreachable whenever the surname guard of strategy 3 holds: a surname of
length at least 4 forces both token lists (and their heads) to be
non-empty. -/
def firstInitial (name : String) : Char :=
  ((nameParts name).headD []).headD ' '

/-- Strategy 3 of `PlayerMatcher.is_match`: equal surnames of length at least
4, and either one side is a single token or the first characters of the
leading tokens agree. -/
def strategySurname (name1 name2 : String) : Bool :=
  (extract_surname name1 = extract_surname name2 &&
      decide (4 ≤ (extract_surname name1).length)) &&
    ((nameParts name1).length = 1 || (nameParts name2).length = 1 ||
      (firstInitial name1 = firstInitial name2))

/-- Strategy 4 of `PlayerMatcher.is_match`: full fuzzy similarity at least
the matcher's threshold. -/
def strategyFuzzy (threshold : ℚ) (name1 name2 : String) : Bool :=
  decide (threshold ≤ similarity_score name1 name2)

/-- `PlayerMatcher.is_match`: the source's early-return chain over the four
strategies, written as the equivalent disjunction (each strategy's condition
is pure, and every failed strategy falls through to the next). -/
def is_match (threshold : ℚ) (name1 name2 : String) : Bool :=
  strategyExact name1 name2 || strategySubstring name1 name2 ||
    strategySurname name1 name2 || strategyFuzzy threshold name1 name2

/-- Loop of `PlayerMatcher.find_best_match`: fold over the candidates keeping
the best `is_match` candidate by strict `similarity_score` improvement
(`best_match` starts as Python's `None`, `best_score` as `0.0`). -/
def fbmLoop (threshold : ℚ) (target : String) :
    List String → Option String → ℚ → Option String × ℚ
  | [], bm, bs => (bm, bs)
  | c :: cs, bm, bs =>
    if is_match threshold target c then
      let s := similarity_score target c
      if bs < s then fbmLoop threshold target cs (some c) s
      else fbmLoop threshold target cs bm bs
    else fbmLoop threshold target cs bm bs

/-- `PlayerMatcher.find_best_match`: `None` on an empty candidate list,
otherwise the fold above followed by the final guard
`if best_match and best_score >= self.threshold`.  (A Python `best_match`
of `""` is falsy, but the fold only ever stores a candidate together with a
strictly positive score, and `similarity_score` of an empty normalized name
is `0`, so `best_match` is never the empty string; the `Option` test is
therefore faithful.) -/
def find_best_match (threshold : ℚ) (target : String) (candidates : List String) :
    Option (String × ℚ) :=
  if candidates.isEmpty then none
  else
    let r := fbmLoop threshold target candidates none 0
    match r.1 with
    | some b => if threshold ≤ r.2 then some (b, r.2) else none
    | none => none

end PlayerMatcher

/-! ### Reference edit distance used to prove properties of the row DP -/

namespace EditDist

/-- Classical edit-distance recursion on character lists (specification-side
function used to reason about the row dynamic program of
`PlayerMatcher.levenshtein_distance`). -/
def ed : List Char → List Char → Nat
  | [], ys => ys.length
  | x :: xs, [] => (x :: xs).length
  | x :: xs, y :: ys =>
    min (ed xs (y :: ys) + 1)
      (min (ed (x :: xs) ys + 1) (ed xs ys + PlayerMatcher.edCost x y))
termination_by xs ys => xs.length + ys.length

/-- Edit distance between reversed lists: the quantity computed cell by cell
by the prefix-indexed dynamic program. -/
def D (p q : List Char) : Nat :=
  ed p.reverse q.reverse

/-- The tail of the dynamic-program row for processed prefix `p`, columns
ranging over the prefixes of `ys` extending `q`. -/
def tailRow (p : List Char) : List Char → List Char → List Nat
  | _, [] => []
  | q, y :: ys => D p (q ++ [y]) :: tailRow p (q ++ [y]) ys

end EditDist

/-! ## Shared data model (src/src/agents/models.py, database/enums.py) -/

/-- Modelled from the spec: the `AlertLevel` enum lives in `database/enums.py`
but that file's snapshot under `src/` only contains `RiskTag`; the spec fixes
the levels high, medium, low (plus the `NO_ALERT` default named by
`database/models/alert.py`). -/
inductive AlertLevel where
  | HIGH_ALERT
  | MEDIUM_ALERT
  | LOW_ALERT
  | NO_ALERT
deriving DecidableEq

/-- Modelled from the spec: the `.value` string of each `AlertLevel` member,
as consumed by `enrich_with_alerts` via `alert.alert_level.value`. -/
def AlertLevel.value : AlertLevel → String
  | .HIGH_ALERT => "high"
  | .MEDIUM_ALERT => "medium"
  | .LOW_ALERT => "low"
  | .NO_ALERT => "no_alert"

/-- `TeamContext` (pydantic): team, opponent, fixture id, fixture datetime
(the datetime is modelled as an opaque integer). -/
structure TeamContext where
  team : String
  opponent : String
  fixture : String
  fixture_date : Int
deriving DecidableEq

/-- `PlayerAlert` (pydantic): the only entity that survives a run.  Pydantic
models compare by field values, which the derived decidable equality
mirrors (Python's `list.remove` uses that equality). -/
structure PlayerAlert where
  player_name : String
  fixture : String
  fixture_date : Int
  alert_level : AlertLevel
  description : String
deriving DecidableEq

/-! ## src/src/clients/grok_client.py — GrokClient.chat_with_streaming

The multi-turn tool-calling session is driven against a scripted model: a
list of model turns, each carrying the turn's final content and its tagged
tool-invocation requests.  The xAI transport, rate limiting and token
accounting are orthogonal to the claims and are not modelled. -/

namespace GrokClient

/-- One tool-invocation request tagged by `get_tool_call_type`:
`client_side = true` models the tag `"client_side_tool"`. -/
structure ToolCall where
  name : String
  arguments : String
  client_side : Bool
deriving DecidableEq

/-- One scripted model turn: the response content and the tool calls
streamed in its chunks. -/
structure ModelTurn where
  content : String
  tool_calls : List ToolCall
deriving DecidableEq

/-- Result of a session: `done` when a turn yields zero client-side tool
calls (the `break` in the source), `pending` when the finite script is
exhausted while the `while True:` loop is still going.  Either way the
number of executed turns (`research_turns`) and the executor invocation log
(name, arguments, result) are recorded. -/
inductive SessionOutcome where
  | done (turns : Nat) (content : String) (executed : List (String × String × String))
  | pending (turns : Nat) (executed : List (String × String × String))
deriving DecidableEq

/-- Executor invocations of one turn: each client-side call whose name is
registered is executed with its model-supplied arguments (an unknown name is
logged and skipped, not fatal). -/
def executeCalls (registry : List (String × (String → String)))
    (calls : List ToolCall) : List (String × String × String) :=
  (calls.filter (fun tc => (registry.map Prod.fst).contains tc.name)).map
    (fun tc =>
      (tc.name, tc.arguments,
        (match registry.find? (fun kv => kv.1 = tc.name) with
         | some kv => kv.2 tc.arguments
         | none => "")))

/-- The `while True:` loop of `chat_with_streaming`: consume one scripted
model turn per iteration, split its tool calls by tag, and stop exactly when
a turn produced no client-side calls; otherwise execute the bound tools and
continue.  Nothing in the loop consults any iteration cap. -/
def sessionLoop (registry : List (String × (String → String))) :
    List ModelTurn → Nat → List (String × String × String) → SessionOutcome
  | [], turns, log => .pending turns log
  | t :: rest, turns, log =>
    let client_side_tool_calls := t.tool_calls.filter (fun tc => tc.client_side)
    if client_side_tool_calls.isEmpty then .done (turns + 1) t.content log
    else sessionLoop registry rest (turns + 1)
      (log ++ executeCalls registry client_side_tool_calls)

/-- `GrokClient.chat_with_streaming` against a scripted model.  The
`max_iterations` parameter is accepted, exactly as in the source, where it is
never read by the loop (the loop is `while True:` and terminates only via
the zero-client-side-calls `break`). -/
def chat_with_streaming (max_iterations : Nat)
    (registry : List (String × (String → String)))
    (script : List ModelTurn) : SessionOutcome :=
  sessionLoop registry script 0 []

/-- Number of turns a session performed (for either outcome). -/
def SessionOutcome.turns : SessionOutcome → Nat
  | .done t _ _ => t
  | .pending t _ => t

/-- Executor invocation log of a session (for either outcome). -/
def SessionOutcome.executed : SessionOutcome → List (String × String × String)
  | .done _ _ l => l
  | .pending _ l => l

/-- A scripted turn issuing exactly one client-side call to the bound roster
tool. -/
def localTurn : ModelTurn :=
  ⟨"", [⟨"get_team_roster", "args1", true⟩]⟩

/-- A scripted final turn with no client-side calls (one server-side search
call is included; those require no caller action). -/
def finalTurn : ModelTurn :=
  ⟨"final answer", [⟨"web_search", "q", false⟩]⟩

/-- A registry binding only the roster tool. -/
def registry0 : List (String × (String → String)) :=
  [("get_team_roster", fun s => String.append "roster:" s)]

end GrokClient

/-! ## src/src/services/agent_pipeline.py — AgentPipeline._run_agent_with_retry -/

namespace AgentPipeline

/-- Outcome of one invocation of an agent callable: a value, or a raised
exception tagged by whether it is a deliberate interrupt (`BdbQuit`). -/
inductive AgentOutcome (V : Type) where
  | ok (v : V)
  | exn (interrupt : Bool) (msg : String)

/-- Failure surfaced by the retry wrapper: an immediately re-raised
deliberate interrupt, or the typed exhaustion failure `AgentResponseError`
carrying the agent's name and reason (src/src/agents/models.py). -/
inductive RetryFailure where
  | interrupted (msg : String)
  | exhausted (agent_name : String) (reason : String)
deriving DecidableEq

/-- The exhaustion message built by the source:
`f"Max retries ({max_retries}) exhausted. Last error: {last_error}"` (a
never-assigned `last_error` prints as Python's `None`). -/
def exhaustMessage (max_retries : Nat) (last_error : Option String) : String :=
  "Max retries (" ++ toString max_retries ++ ") exhausted. Last error: " ++
    (match last_error with
     | some s => s
     | none => "None")

/-- The `for attempt in range(1, max_retries + 1)` loop of
`_run_agent_with_retry`, with the agent's scripted outcomes indexed by
attempt number.  Returns the result together with the number of agent
invocations made. -/
def retryLoop {V : Type} (agent_name : String) (agent : Nat → AgentOutcome V)
    (validator : V → Bool) (max_retries : Nat) (attempt : Nat)
    (last_error : Option String) (calls : Nat) :
    Except RetryFailure V × Nat :=
  if h : max_retries < attempt then
    (.error (.exhausted agent_name (exhaustMessage max_retries last_error)), calls)
  else
    match agent attempt with
    | .ok v =>
      if validator v then (.ok v, calls + 1)
      else retryLoop agent_name agent validator max_retries (attempt + 1)
        (some "Invalid response structure") (calls + 1)
    | .exn true msg => (.error (.interrupted msg), calls + 1)
    | .exn false msg =>
      retryLoop agent_name agent validator max_retries (attempt + 1)
        (some msg) (calls + 1)
termination_by max_retries + 1 - attempt

/-- `AgentPipeline._run_agent_with_retry` (default `max_retries = 3`):
attempts run from 1 to `max_retries`; a valid result returns, an invalid
result or a non-interrupt exception records the last error and retries, a
`BdbQuit` re-raises immediately, and an exhausted loop raises
`AgentResponseError`. -/
def run_agent_with_retry {V : Type} (agent_name : String)
    (agent : Nat → AgentOutcome V) (validator : V → Bool)
    (max_retries : Nat := 3) : Except RetryFailure V × Nat :=
  retryLoop agent_name agent validator max_retries 1 none 0

end AgentPipeline

/-! ## src/src/pipeline.py — ProjectionAlertPipeline (top-level fixture loop) -/

namespace Pipeline

/-- The summary printed at the end of `run_async` (fixtures processed and
alerts generated; the wall-clock duration and enrichment count are not
modelled). -/
structure RunSummary where
  fixtures_processed : Nat
  alerts_generated : Nat
deriving DecidableEq

/-- `ProjectionAlertPipeline.run_agents_for_fixture`: parse the match time
(irrelevant here), call `AgentPipeline.run_and_save` — modelled by the
`agents` oracle — and on exception print the failure and re-raise (`raise e`
in the source: the exception is not swallowed). -/
def run_agents_for_fixture (agents : String → Except String (List PlayerAlert))
    (fixture : String) : Except String (List PlayerAlert) :=
  match agents fixture with
  | .ok alerts => .ok alerts
  | .error e => .error e

/-- The fixture loop of `ProjectionAlertPipeline.run_async`: iterate the
fixtures in order, extending `all_alerts`; there is no `try`/`except` around
`run_agents_for_fixture`, so an error propagates out of `run_async` at once.
Returns the run outcome (summary, or the propagated error) together with the
list of fixtures whose agent chain was started. -/
def runLoop (agents : String → Except String (List PlayerAlert)) :
    List String → List PlayerAlert → List String →
    Except String RunSummary × List String
  | [], all_alerts, processed =>
    (.ok ⟨processed.length, all_alerts.length⟩, processed)
  | f :: rest, all_alerts, processed =>
    match run_agents_for_fixture agents f with
    | .error e => (.error e, processed ++ [f])
    | .ok alerts => runLoop agents rest (all_alerts ++ alerts) (processed ++ [f])

/-- `ProjectionAlertPipeline.run_async` over a given fixture list (the
BigQuery fetch, roster update and enrichment steps are external effects
orthogonal to the claims; the summary is only reached when every fixture
succeeded). -/
def run_async (agents : String → Except String (List PlayerAlert))
    (fixtures : List String) : Except String RunSummary × List String :=
  runLoop agents fixtures [] []

/-- One persisted alert row, tagged by the run identifier column that
`AlertService.save_alerts` stamps on every row. -/
structure SavedAlert where
  run_id : String
  fixture : String
  alert : PlayerAlert
deriving DecidableEq

/-- `AlertService.save_alerts`: append one row per alert, stamped with the
service's `run_id`. -/
def save_alerts (run_id : String) (store : List SavedAlert)
    (alerts : List PlayerAlert) : List SavedAlert :=
  store ++ alerts.map (fun a => ⟨run_id, a.fixture, a⟩)

/-- `AgentPipeline.run_and_save`: run the agent chain (the `agents` oracle),
save the alerts when non-empty, and return them; the third component counts
the `AgentPipeline.run` invocations made (always one — nothing short-circuits
it). -/
def run_and_save (run_id : String) (agents : String → List PlayerAlert)
    (store : List SavedAlert) (fixture : String) :
    List PlayerAlert × List SavedAlert × Nat :=
  let alerts := agents fixture
  (alerts, if alerts.isEmpty then store else save_alerts run_id store alerts, 1)

/-- The body of `run_agents_for_fixture` around `run_and_save`: the source
consults no alert store and performs no idempotency check before invoking
the agent chain — it calls `run_and_save` unconditionally. -/
def run_agents_body (run_id : String) (agents : String → List PlayerAlert)
    (store : List SavedAlert) (fixture : String) :
    List PlayerAlert × List SavedAlert × Nat :=
  run_and_save run_id agents store fixture

/-- A concrete alert used in the pipeline evaluations. -/
def alert0 : PlayerAlert :=
  ⟨"Viktor Gyokeres", "Arsenal vs Brentford", 20251203, .HIGH_ALERT,
    "Ruled out with a hamstring injury"⟩

/-- An agent-chain oracle whose first fixture fails irrecoverably
(`AgentPipeline` raising after exhausting its retries) and whose other
fixtures succeed. -/
def badAgents : String → Except String (List PlayerAlert) :=
  fun f =>
    if f = "Arsenal vs Brentford" then
      .error "Research Agent (Arsenal) failed: Max retries (3) exhausted. Last error: Invalid response structure"
    else .ok [alert0]

/-- An agent chain producing one alert for every fixture. -/
def agents0 : String → List PlayerAlert :=
  fun _ => [alert0]

/-- An alert store already holding an alert for the fixture
`"Arsenal vs Brentford"` under run id `"run1"`. -/
def store0 : List SavedAlert :=
  [⟨"run1", "Arsenal vs Brentford", alert0⟩]

end Pipeline

/-! ## src/src/agents/shark_agent.py — SharkAgent._parse_response

The model's response text is a JSON document; `json.loads` is standard
library code, so the parsed value is taken as input: `none` models a
`json.JSONDecodeError` (the first `except` branch), `some v` the decoded
value. -/

namespace SharkAgent

/-- Decoded JSON values (`json.loads` output). -/
inductive JValue where
  | null
  | bool (b : Bool)
  | num (n : Int)
  | str (s : String)
  | arr (xs : List JValue)
  | obj (fields : List (String × JValue))

/-- Python `dict.get` on a decoded JSON object (first binding wins, as in a
dict there is at most one). -/
def jGet (fields : List (String × JValue)) (key : String) : Option JValue :=
  match fields.find? (fun kv => kv.1 = key) with
  | some kv => some kv.2
  | none => none

/-- A fetched field as a string: `some` when the key is absent (use the
default) or bound to a string; `none` models the `AttributeError` /
pydantic `ValidationError` a non-string value would raise inside the `try`
block (caught by the broad `except`, which discards all alerts). -/
def jGetStr (fields : List (String × JValue)) (key : String) (dflt : String) :
    Option String :=
  match jGet fields key with
  | none => some dflt
  | some (.str s) => some s
  | some _ => none

/-- `item.get('reasoning', item.get('description', ''))`: the inner `get` is
the default of the outer one. -/
def jGetReasoning (fields : List (String × JValue)) : Option String :=
  match jGet fields "reasoning" with
  | some (.str s) => some s
  | some _ => none
  | none => jGetStr fields "description" ""

/-- The `alert_level_map` lookup with default `AlertLevel.LOW_ALERT`. -/
def alertLevelOf (s : String) : AlertLevel :=
  if s = "high" then .HIGH_ALERT
  else if s = "medium" then .MEDIUM_ALERT
  else if s = "low" then .LOW_ALERT
  else if s = "no_alert" then .NO_ALERT
  else .LOW_ALERT

/-- One loop body of `_parse_response`: build a `PlayerAlert` from one array
item.  A non-object item (no `.get`) or a non-string field raises inside the
`try`, modelled as `none`. -/
def itemToAlert (ctx : TeamContext) : JValue → Option PlayerAlert
  | .obj fields =>
    match jGetStr fields "alert_level" "low" with
    | none => none
    | some lvl =>
      match jGetStr fields "player_name" "" with
      | none => none
      | some pn =>
        match jGetReasoning fields with
        | none => none
        | some desc =>
          some ⟨pn, ctx.fixture, ctx.fixture_date, alertLevelOf lvl.toLower, desc⟩
  | _ => none

/-- The `for item in data` loop: all items convert, or the raised exception
abandons every alert built so far. -/
def itemsToAlerts (ctx : TeamContext) : List JValue → Option (List PlayerAlert)
  | [] => some []
  | v :: vs =>
    match itemToAlert ctx v with
    | none => none
    | some a =>
      match itemsToAlerts ctx vs with
      | none => none
      | some rest => some (a :: rest)

/-- The `data` list handed to the loop: a non-list decoded value is wrapped
in a singleton list (`data = [data]`). -/
def itemsOf : JValue → List JValue
  | .arr xs => xs
  | v => [v]

/-- `SharkAgent._parse_response`: decode failure or any per-item error
returns `[]`; otherwise one `PlayerAlert` per item of the JSON array, in
order, with no deduplication pass. -/
def parse_response (content : Option JValue) (ctx : TeamContext) :
    List PlayerAlert :=
  match content with
  | none => []
  | some data =>
    match itemsToAlerts ctx (itemsOf data) with
    | none => []
    | some alerts => alerts

/-- The `player_name` strings an array item would contribute (specification
side, used to compare the parsed alerts against the raw response). -/
def itemName : JValue → String
  | .obj fields => (jGetStr fields "player_name" "").getD ""
  | _ => ""

/-- A concrete team context. -/
def ctx0 : TeamContext :=
  ⟨"Arsenal", "Brentford", "Arsenal vs Brentford", 20251203⟩

/-- A decoded model response listing the same player twice, with different
levels and rationales. -/
def dupResponse : Option JValue :=
  some (.arr
    [.obj [("player_name", .str "Viktor Gyokeres"),
           ("alert_level", .str "high"),
           ("reasoning", .str "ruled out")],
     .obj [("player_name", .str "Viktor Gyokeres"),
           ("alert_level", .str "medium"),
           ("reasoning", .str "doubtful")]])

/-- A decoded model response listing two distinct players once each. -/
def okResponse : Option JValue :=
  some (.arr
    [.obj [("player_name", .str "Viktor Gyokeres"),
           ("alert_level", .str "high"),
           ("reasoning", .str "ruled out")],
     .obj [("player_name", .str "Bukayo Saka"),
           ("alert_level", .str "medium"),
           ("reasoning", .str "doubtful")]])

/-- The `player_name` strings of the decoded model response, item by item
(specification side: what the response itself mentions). -/
def responseNames (content : Option JValue) : List String :=
  match content with
  | none => []
  | some data => (itemsOf data).map itemName

end SharkAgent

/-! ## src/bigquery/projections_service.py — ProjectionsService.enrich_with_alerts

A pandas DataFrame of projections is modelled as a list of rows plus flags
recording which alert columns the frame carries (pre-existing projection
columns other than `player_name` and `fixture` are bundled into an opaque
`extra` field; the enrichment never reads or writes them). -/

namespace ProjectionsService

/-- One projection row: the two columns the enrichment reads, the opaque
remaining columns, and the three alert columns it may write. -/
structure ProjRow (α : Type) where
  player_name : String
  fixture : String
  extra : α
  alert_level : Option String
  alert_description : Option String
  alert_matched : Bool
deriving DecidableEq

/-- A projections DataFrame: its rows, and whether the
`alert_level`/`alert_description` pair and the `alert_matched` column are
present. -/
structure Frame (α : Type) where
  rows : List (ProjRow α)
  hasAlertCols : Bool
  hasMatchedCol : Bool
deriving DecidableEq

/-- The columns of a row untouched by the enrichment. -/
def rowBase {α : Type} (r : ProjRow α) : String × String × α :=
  (r.player_name, r.fixture, r.extra)

/-- The fixture key used on both sides of the lookup:
`fixture.lower().strip()`. -/
def fixtureKey (s : String) : String :=
  s.toLower.trim

/-- The per-fixture alert dict `alerts_by_fixture` (insertion-ordered, as a
Python dict; only keyed lookup matters). -/
abbrev AlertDict := List (String × List PlayerAlert)

/-- Append an alert to its fixture bucket, creating the bucket on first
use. -/
def dictAppend (d : AlertDict) (k : String) (a : PlayerAlert) : AlertDict :=
  match d with
  | [] => [(k, [a])]
  | (k0, l0) :: rest =>
    if k0 = k then (k0, l0 ++ [a]) :: rest else (k0, l0) :: dictAppend rest k a

/-- The `alerts_by_fixture` construction loop. -/
def alertsByFixture (alerts : List PlayerAlert) : AlertDict :=
  alerts.foldl (fun d a => dictAppend d (fixtureKey a.fixture) a) []

/-- `alerts_by_fixture.get(key, [])`. -/
def dictGet (d : AlertDict) (k : String) : List PlayerAlert :=
  match d with
  | [] => []
  | (k0, l0) :: rest => if k0 = k then l0 else dictGet rest k

/-- In-place replacement of a bucket's list (the effect of
`alerts_by_fixture[key].remove(alert)` on the dict). -/
def dictSet (d : AlertDict) (k : String) (l : List PlayerAlert) : AlertDict :=
  match d with
  | [] => []
  | (k0, l0) :: rest =>
    if k0 = k then (k0, l) :: rest else (k0, l0) :: dictSet rest k l

/-- The row-matching loop of `enrich_with_alerts` (the default
`PlayerMatcher()` threshold is 0.80): for each row, fetch its fixture's
bucket, take the first alert matching by `is_match`, write the row's alert
columns, and `remove` the consumed alert from the bucket (first
value-equal occurrence — which is the found one, since an earlier
value-equal alert would itself have matched first).  Returns the rewritten
rows, the final dict, and the list of consumed alerts (the source's
`matched_count`/`alert_matched` log trail). -/
def matchRows {α : Type} :
    List (ProjRow α) → AlertDict →
    List (ProjRow α) × AlertDict × List PlayerAlert
  | [], d => ([], d, [])
  | r :: rs, d =>
    let key := fixtureKey r.fixture
    let fixture_alerts := dictGet d key
    match fixture_alerts.find?
        (fun a => PlayerMatcher.is_match (4/5) r.player_name a.player_name) with
    | none =>
      let rec0 := matchRows rs d
      (r :: rec0.1, rec0.2.1, rec0.2.2)
    | some a =>
      let r' := { r with
        alert_level := some a.alert_level.value,
        alert_description := some a.description,
        alert_matched := true }
      let d' := dictSet d key (fixture_alerts.erase a)
      let rec0 := matchRows rs d'
      (r' :: rec0.1, rec0.2.1, a :: rec0.2.2)

/-- Initialization of the alert columns before matching
(`enriched["alert_level"] = None`, etc.). -/
def initRow {α : Type} (r : ProjRow α) : ProjRow α :=
  { r with alert_level := none, alert_description := none, alert_matched := false }

/-- The column writes of the empty-alert-list branch
(`projections["alert_level"] = None; projections["alert_description"] = None`;
the `alert_matched` column is not touched there). -/
def clearAlertCols {α : Type} (r : ProjRow α) : ProjRow α :=
  { r with alert_level := none, alert_description := none }

/-- `ProjectionsService.enrich_with_alerts`: an empty frame is returned as
is; an empty alert list yields a copy with null `alert_level` and
`alert_description` columns (the `alert_matched` column is not touched in
that branch); otherwise the rows are initialized and matched against the
per-fixture dict.  The source works on `projections.copy()` and on fresh
bucket lists, so the caller's arguments are untouched — in this pure
embedding that is inherent. -/
def enrich_with_alerts {α : Type} (projections : Frame α)
    (alerts : List PlayerAlert) : Frame α :=
  if projections.rows.isEmpty then projections
  else if alerts.isEmpty then
    { rows := projections.rows.map clearAlertCols,
      hasAlertCols := true,
      hasMatchedCol := projections.hasMatchedCol }
  else
    { rows := (matchRows (projections.rows.map initRow) (alertsByFixture alerts)).1,
      hasAlertCols := true,
      hasMatchedCol := true }

/-- The alerts consumed by one enrichment run (each consumption is one
matched row). -/
def enrichConsumed {α : Type} (projections : Frame α)
    (alerts : List PlayerAlert) : List PlayerAlert :=
  if projections.rows.isEmpty || alerts.isEmpty then []
  else (matchRows (projections.rows.map initRow) (alertsByFixture alerts)).2.2

/-- Total number of occurrences of an alert value across the dict's
buckets. -/
def dictCount (d : AlertDict) (a : PlayerAlert) : Nat :=
  (d.map (fun kv => kv.2.count a)).sum

end ProjectionsService

/-! ## Theorems -/

namespace EditDist

/-- The reference recursion on an empty first argument. -/
theorem ed_nil_left (ys : List Char) : ed [] ys = ys.length := by
  cases ys <;> simp [ed]

/-- The reference recursion on an empty second argument. -/
theorem ed_nil_right (xs : List Char) : ed xs [] = xs.length := by
  cases xs <;> simp [ed]

/-- Unfolding of the reference recursion on two cons cells. -/
theorem ed_cons_cons (x y : Char) (xs ys : List Char) :
    ed (x :: xs) (y :: ys) =
      min (ed xs (y :: ys) + 1)
        (min (ed (x :: xs) ys + 1) (ed xs ys + PlayerMatcher.edCost x y)) := by
  simp [ed]

/-- The substitution cost is symmetric. -/
theorem edCost_comm (x y : Char) :
    PlayerMatcher.edCost x y = PlayerMatcher.edCost y x := by
  simp [PlayerMatcher.edCost, eq_comm]

/-- The reference edit distance is symmetric. -/
theorem ed_symm (a b : List Char) : ed a b = ed b a := by
  match a, b with
  | [], ys => simp [ed_nil_left, ed_nil_right]
  | x :: xs, [] => simp [ed_nil_left, ed_nil_right]
  | x :: xs, y :: ys =>
    rw [ed_cons_cons, ed_cons_cons, ed_symm xs (y :: ys), ed_symm (x :: xs) ys,
      ed_symm xs ys, edCost_comm]
    exact min_left_comm _ _ _
termination_by a.length + b.length
decreasing_by all_goals (simp only [List.length_cons]; omega)

/-- `D` on an empty column prefix. -/
theorem D_nil_right (p : List Char) : D p [] = p.length := by
  simp [D, ed_nil_right]

/-- `D` on an empty processed prefix. -/
theorem D_nil_left (q : List Char) : D [] q = q.length := by
  simp [D, ed_nil_left]

/-- The cell recurrence of the prefix-indexed dynamic program, obtained from
the reference recursion on reversed lists. -/
theorem D_snoc_snoc (p q : List Char) (x y : Char) :
    D (p ++ [x]) (q ++ [y]) =
      min (D p (q ++ [y]) + 1)
        (min (D (p ++ [x]) q + 1) (D p q + PlayerMatcher.edCost x y)) := by
  simp only [D, List.reverse_append, List.reverse_singleton, List.singleton_append]
  exact ed_cons_cons x y p.reverse q.reverse

/-- The inner loop computes the next row of prefix distances: walking the
remaining columns `ys` with the matching suffix of the previous row and the
last written cell yields the matching suffix of the next row. -/
theorem buildRow_eq (c1 : Char) (p : List Char) :
    ∀ (ys q : List Char),
      PlayerMatcher.buildRow c1 ys (D p q :: tailRow p q ys) (D (p ++ [c1]) q) =
        tailRow (p ++ [c1]) q ys := by
  intro ys
  induction ys with
  | nil => intro q; simp [PlayerMatcher.buildRow, tailRow]
  | cons y ys ih =>
    intro q
    rw [tailRow, tailRow, PlayerMatcher.buildRow]
    have hcell : min (D p (q ++ [y]) + 1)
        (min (D (p ++ [c1]) q + 1) (D p q + PlayerMatcher.edCost c1 y)) =
        D (p ++ [c1]) (q ++ [y]) := (D_snoc_snoc p q c1 y).symm
    rw [hcell, ih (q ++ [y])]

/-- The outer loop advances the processed prefix one character per row. -/
theorem levRows_eq (s2 : List Char) :
    ∀ (cs p : List Char),
      PlayerMatcher.levRows s2 cs (D p [] :: tailRow p [] s2) =
        D (p ++ cs) [] :: tailRow (p ++ cs) [] s2 := by
  intro cs
  induction cs with
  | nil => intro p; simp [PlayerMatcher.levRows]
  | cons c1 cs ih =>
    intro p
    rw [PlayerMatcher.levRows]
    have hfirst : (D p [] :: tailRow p [] s2).headD 0 + 1 = D (p ++ [c1]) [] := by
      simp [D_nil_right]
    rw [hfirst, buildRow_eq c1 p s2 [], ih (p ++ [c1])]
    simp

/-- The seed row `range(len(s2) + 1)` is the row of the empty prefix. -/
theorem range_eq_row0 (s2 : List Char) :
    List.range (s2.length + 1) = D [] [] :: tailRow [] [] s2 := by
  have htail : ∀ (ys q : List Char),
      tailRow [] q ys = (List.range ys.length).map (fun j => q.length + 1 + j) := by
    intro ys
    induction ys with
    | nil => intro q; simp [tailRow]
    | cons y ys ih =>
      intro q
      rw [tailRow, ih (q ++ [y]), D_nil_left]
      rw [show (y :: ys).length = ys.length + 1 from rfl, List.range_succ_eq_map]
      simp only [List.map_cons, List.map_map]
      congr 1
      · simp
      · apply List.map_congr_left
        intro j _
        simp [Function.comp]
        omega
  rw [htail s2 [], D_nil_left, List.range_succ_eq_map]
  simp only [List.cons.injEq]
  refine ⟨by simp, ?_⟩
  apply List.map_congr_left
  intro j _
  simp only [List.length_nil, Nat.succ_eq_add_one]
  omega

/-- A row tail over at least one column is non-empty. -/
theorem tailRow_ne_nil (p q : List Char) {ys : List Char} (h : ys ≠ []) :
    tailRow p q ys ≠ [] := by
  cases ys with
  | nil => exact absurd rfl h
  | cons y ys => rw [tailRow]; simp

/-- The default of `getLastD` is irrelevant on a non-empty list. -/
theorem getLastD_irrel {l : List Nat} (h : l ≠ []) (d1 d2 : Nat) :
    l.getLastD d1 = l.getLastD d2 := by
  rw [List.getLastD_eq_getLast?, List.getLastD_eq_getLast?]
  have hs := List.getLast?_isSome.mpr h
  cases hl : l.getLast? with
  | none => rw [hl] at hs; simp at hs
  | some v => simp

/-- The last cell of a row of prefix distances. -/
theorem tailRow_getLastD (p : List Char) :
    ∀ (ys q : List Char), ys ≠ [] →
      (tailRow p q ys).getLastD 0 = D p (q ++ ys) := by
  intro ys
  induction ys with
  | nil => intro q h; exact absurd rfl h
  | cons y ys ih =>
    intro q _
    rw [tailRow]
    by_cases hys : ys = []
    · subst hys
      simp [tailRow]
    · rw [List.getLastD_cons, getLastD_irrel (tailRow_ne_nil p (q ++ [y]) hys),
        ih (q ++ [y]) hys]
      simp

/-- The body of the row dynamic program computes the reference edit distance
of the reversed inputs. -/
theorem levBody_eq_D (s1 s2 : List Char) :
    PlayerMatcher.levBody s1 s2 = D s1 s2 := by
  by_cases h2 : s2.length = 0
  · have : s2 = [] := List.length_eq_zero.mp h2
    subst this
    simp [PlayerMatcher.levBody, D_nil_right]
  · have h2ne : s2 ≠ [] := fun h => h2 (by simp [h])
    rw [PlayerMatcher.levBody, if_neg h2, range_eq_row0 s2]
    have hrows := levRows_eq s2 s1 []
    simp only [List.nil_append] at hrows
    rw [hrows, List.getLastD_cons,
      getLastD_irrel (tailRow_ne_nil s1 [] h2ne) (D s1 []) 0,
      tailRow_getLastD s1 s2 [] h2ne]
    simp

/-- The source's `levenshtein_distance` is symmetric: the explicit
length-ordering swap settles unequal lengths, and on equal lengths the row
dynamic program computes the symmetric reference distance. -/
theorem levenshtein_symm (a b : List Char) :
    PlayerMatcher.levenshtein_distance a b = PlayerMatcher.levenshtein_distance b a := by
  unfold PlayerMatcher.levenshtein_distance
  rcases lt_trichotomy a.length b.length with h | h | h
  · rw [if_pos h, if_neg (by omega)]
  · rw [if_neg (by omega), if_neg (by omega), levBody_eq_D, levBody_eq_D]
    simp only [D]
    exact ed_symm _ _
  · rw [if_neg (by omega), if_pos h]

end EditDist

namespace PlayerMatcher

/-- `similarity_score` is symmetric in its two names. -/
theorem similarity_score_symm (a b : String) :
    similarity_score a b = similarity_score b a := by
  unfold similarity_score
  by_cases h0 : (normalize a).toList = [] ∨ (normalize b).toList = []
  · rw [if_pos h0, if_pos (Or.symm h0)]
  · rw [if_neg h0, if_neg (fun h => h0 (Or.symm h))]
    by_cases he : (normalize a).toList = (normalize b).toList
    · rw [if_pos he, if_pos he.symm]
    · rw [if_neg he, if_neg (fun h => he h.symm)]
      rw [EditDist.levenshtein_symm, max_comm]

/-- Exact normalized equality is symmetric. -/
theorem strategyExact_comm (a b : String) :
    strategyExact a b = strategyExact b a := by
  simp [strategyExact, eq_comm]

/-- The length of the shorter of two lists is their minimum length. -/
theorem shorter_length (u v : List Char) :
    (if u.length < v.length then u else v).length = min u.length v.length := by
  by_cases h : u.length < v.length
  · rw [if_pos h, min_eq_left (le_of_lt h)]
  · rw [if_neg h, min_eq_right (by omega)]

/-- The substring strategy is symmetric. -/
theorem strategySubstring_comm (a b : String) :
    strategySubstring a b = strategySubstring b a := by
  simp only [strategySubstring]
  rw [shorter_length, shorter_length, Bool.or_comm, min_comm]

/-- The surname strategy is symmetric. -/
theorem strategySurname_comm (a b : String) :
    strategySurname a b = strategySurname b a := by
  unfold strategySurname
  by_cases h : extract_surname a = extract_surname b
  · rw [h]
    congr 1
    have hq : (decide (firstInitial a = firstInitial b)) =
        (decide (firstInitial b = firstInitial a)) := by
      simp [eq_comm]
    rw [hq, Bool.or_comm (decide ((nameParts a).length = 1))]
  · have h2 : ¬ (extract_surname b = extract_surname a) := fun hh => h hh.symm
    simp [h, h2]

/-- The fuzzy strategy is symmetric. -/
theorem strategyFuzzy_comm (t : ℚ) (a b : String) :
    strategyFuzzy t a b = strategyFuzzy t b a := by
  unfold strategyFuzzy
  rw [similarity_score_symm]

/-- C9: for all name pairs `(a, b)` and any threshold,
`PlayerMatcher.is_match a b` equals `PlayerMatcher.is_match b a`: symmetry
holds jointly across all four matching strategies (exact normalized
equality, substring containment with the length-5 floor, the surname
heuristic, and the Levenshtein-similarity threshold). -/
theorem is_match_symm (θ : ℚ) (a b : String) :
    is_match θ a b = is_match θ b a := by
  unfold is_match
  rw [strategyExact_comm, strategySubstring_comm, strategySurname_comm,
    strategyFuzzy_comm]

/-- The running best score of the `find_best_match` loop never decreases. -/
theorem fbmLoop_mono (θ : ℚ) (t : String) :
    ∀ (cs : List String) (bm : Option String) (bs : ℚ),
      bs ≤ (fbmLoop θ t cs bm bs).2 := by
  intro cs
  induction cs with
  | nil => intro bm bs; exact le_refl _
  | cons c cs ih =>
    intro bm bs
    rw [fbmLoop]
    by_cases hm : is_match θ t c
    · rw [if_pos hm]
      by_cases hs : bs < similarity_score t c
      · simpa [hs] using le_trans (le_of_lt hs) (ih (some c) (similarity_score t c))
      · simpa [hs] using ih bm bs
    · simpa [hm] using ih bm bs

/-- The final best score of the `find_best_match` loop dominates the
similarity of every matching candidate. -/
theorem fbmLoop_max (θ : ℚ) (t : String) :
    ∀ (cs : List String) (bm : Option String) (bs : ℚ),
      ∀ c ∈ cs, is_match θ t c = true →
        similarity_score t c ≤ (fbmLoop θ t cs bm bs).2 := by
  intro cs
  induction cs with
  | nil => intro bm bs c hc; exact absurd hc (List.not_mem_nil c)
  | cons c0 cs ih =>
    intro bm bs c hc hmc
    rw [fbmLoop]
    rcases List.mem_cons.mp hc with hc0 | hcs
    · subst hc0
      rw [if_pos hmc]
      by_cases hs : bs < similarity_score t c
      · simpa [hs] using fbmLoop_mono θ t cs (some c) (similarity_score t c)
      · simp only [hs, if_false]
        exact le_trans (not_lt.mp hs) (fbmLoop_mono θ t cs bm bs)
    · by_cases hm0 : is_match θ t c0
      · rw [if_pos hm0]
        by_cases hs : bs < similarity_score t c0
        · simpa [hs] using ih (some c0) (similarity_score t c0) c hcs hmc
        · simpa [hs] using ih bm bs c hcs hmc
      · simpa [hm0] using ih bm bs c hcs hmc

/-- Soundness of the `find_best_match` loop state: a `none` result keeps the
zero score, and a `some` result is a matching candidate (from the list or
the incoming state) carried together with its own strictly positive
similarity score. -/
theorem fbmLoop_sound (θ : ℚ) (t : String) :
    ∀ (cs : List String) (bm : Option String) (bs : ℚ),
      (bm = none → bs = 0) →
      (∀ c, bm = some c →
        is_match θ t c = true ∧ bs = similarity_score t c ∧ 0 < bs) →
      ((fbmLoop θ t cs bm bs).1 = none → (fbmLoop θ t cs bm bs).2 = 0) ∧
      (∀ c, (fbmLoop θ t cs bm bs).1 = some c →
        (is_match θ t c = true ∧ (fbmLoop θ t cs bm bs).2 = similarity_score t c ∧
          0 < (fbmLoop θ t cs bm bs).2) ∧ (c ∈ cs ∨ bm = some c)) := by
  intro cs
  induction cs with
  | nil =>
    intro bm bs h0 hsome
    refine ⟨h0, fun c hc => ⟨hsome c hc, Or.inr hc⟩⟩
  | cons c0 cs ih =>
    intro bm bs h0 hsome
    have hbs0 : 0 ≤ bs := by
      cases hbm : bm with
      | none => rw [h0 hbm]
      | some c => exact le_of_lt (hsome c hbm).2.2
    rw [fbmLoop]
    by_cases hm0 : is_match θ t c0
    · rw [if_pos hm0]
      by_cases hs : bs < similarity_score t c0
      · simp only [hs, if_true]
        have := ih (some c0) (similarity_score t c0)
          (by intro h; cases h)
          (by
            intro c hc
            injection hc with hc
            subst hc
            exact ⟨hm0, rfl, lt_of_le_of_lt hbs0 hs⟩)
        refine ⟨this.1, fun c hc => ?_⟩
        rcases this.2 c hc with ⟨hprops, hmem⟩
        refine ⟨hprops, ?_⟩
        rcases hmem with hin | hbmc
        · exact Or.inl (List.mem_cons_of_mem c0 hin)
        · injection hbmc with hbmc
          exact Or.inl (by rw [← hbmc]; exact List.mem_cons_self c0 cs)
      · simp only [hs, if_false]
        have := ih bm bs h0 hsome
        refine ⟨this.1, fun c hc => ?_⟩
        rcases this.2 c hc with ⟨hprops, hmem⟩
        exact ⟨hprops, hmem.imp (List.mem_cons_of_mem c0) id⟩
    · simp only [hm0, if_false]
      have := ih bm bs h0 hsome
      refine ⟨this.1, fun c hc => ?_⟩
      rcases this.2 c hc with ⟨hprops, hmem⟩
      exact ⟨hprops, hmem.imp (List.mem_cons_of_mem c0) id⟩

/-- C7 counterexample: `"Gabriel"` matches `"Gabriel Magalhaes"` by
`is_match` (substring strategy), yet `find_best_match` returns `None` for
it, because the source additionally requires the best similarity score to
reach the threshold (here `7/17 < 4/5`). -/
theorem find_best_match_misses_substring_match :
    is_match (4/5) "Gabriel" "Gabriel Magalhaes" = true ∧
      find_best_match (4/5) "Gabriel" ["Gabriel Magalhaes"] = none := by
  have hm : is_match (4/5) "Gabriel" "Gabriel Magalhaes" = true := by decide
  have hne1 : ¬((normalize "Gabriel").toList = [] ∨
      (normalize "Gabriel Magalhaes").toList = []) := by decide
  have hne2 : (normalize "Gabriel").toList ≠
      (normalize "Gabriel Magalhaes").toList := by decide
  have hld : levenshtein_distance (normalize "Gabriel").toList
      (normalize "Gabriel Magalhaes").toList = 10 := by decide
  have hl1 : (normalize "Gabriel").toList.length = 7 := by decide
  have hl2 : (normalize "Gabriel Magalhaes").toList.length = 17 := by decide
  have hsim : similarity_score "Gabriel" "Gabriel Magalhaes" = 7/17 := by
    unfold similarity_score
    rw [if_neg hne1, if_neg hne2, hld, hl1, hl2]
    push_cast
    rw [max_eq_right (by norm_num : (7:ℚ) ≤ 17)]
    norm_num
  refine ⟨hm, ?_⟩
  simp only [find_best_match, fbmLoop, hm, hsim, List.isEmpty_cons, if_true,
    if_false, ite_true, ite_false]
  norm_num

/-- C7 (amended): `find_best_match` returns a candidate exactly when some
candidate both satisfies `is_match` and has `similarity_score` at least the
threshold; the returned candidate is a matching one carrying its own score,
that score reaches the threshold and dominates every matching candidate's
score, and `None` is returned precisely when every matching candidate
scores strictly below the threshold. -/
theorem find_best_match_spec (θ : ℚ) (t : String) (cs : List String)
    (hθ : 0 < θ) :
    (∀ c s, find_best_match θ t cs = some (c, s) →
      c ∈ cs ∧ is_match θ t c = true ∧ s = similarity_score t c ∧ θ ≤ s ∧
        ∀ c' ∈ cs, is_match θ t c' = true → similarity_score t c' ≤ s) ∧
    (find_best_match θ t cs = none →
      ∀ c ∈ cs, is_match θ t c = true → similarity_score t c < θ) := by
  unfold find_best_match
  by_cases hempty : cs.isEmpty
  · have : cs = [] := List.isEmpty_iff.mp hempty
    subst this
    simp
  · rw [if_neg hempty]
    have hsound := fbmLoop_sound θ t cs none 0 (fun _ => rfl) (by intro c hc; cases hc)
    have hmax := fbmLoop_max θ t cs none 0
    cases hr : (fbmLoop θ t cs none 0).1 with
    | none =>
      simp only [hr]
      refine ⟨fun c s hc => Option.noConfusion hc, fun _ c hc hmc => ?_⟩
      have h2 : (fbmLoop θ t cs none 0).2 = 0 := hsound.1 hr
      have := hmax c hc hmc
      rw [h2] at this
      exact lt_of_le_of_lt this hθ
    | some b =>
      simp only [hr]
      by_cases hth : θ ≤ (fbmLoop θ t cs none 0).2
      · rw [if_pos hth]
        refine ⟨fun c s hc => ?_, fun hc => Option.noConfusion hc⟩
        rw [Option.some.injEq, Prod.mk.injEq] at hc
        obtain ⟨hcb, hsb⟩ := hc
        subst hcb
        subst hsb
        rcases hsound.2 b hr with ⟨⟨hmc, hscore, _⟩, hmem⟩
        have hmem' : b ∈ cs := by
          rcases hmem with h | h
          · exact h
          · cases h
        exact ⟨hmem', hmc, hscore, hth, fun c' hc' hmc' => hmax c' hc' hmc'⟩
      · rw [if_neg hth]
        refine ⟨fun c s hc => Option.noConfusion hc, fun _ c hc hmc => ?_⟩
        exact lt_of_le_of_lt (hmax c hc hmc) (not_le.mp hth)

/-- Witness for the amended C7 theorem at a concrete input: with the default
threshold, target `"Saka"` and sole candidate `"Bukayo Saka"`, the
characterization holds with the hypothesis `0 < 4/5` discharged. -/
theorem find_best_match_spec_witness :
    (∀ c s, find_best_match (4/5) "Saka" ["Bukayo Saka"] = some (c, s) →
      c ∈ ["Bukayo Saka"] ∧ is_match (4/5) "Saka" c = true ∧
        s = similarity_score "Saka" c ∧ (4/5 : ℚ) ≤ s ∧
        ∀ c' ∈ ["Bukayo Saka"], is_match (4/5) "Saka" c' = true →
          similarity_score "Saka" c' ≤ s) ∧
    (find_best_match (4/5) "Saka" ["Bukayo Saka"] = none →
      ∀ c ∈ ["Bukayo Saka"], is_match (4/5) "Saka" c = true →
        similarity_score "Saka" c < 4/5) :=
  find_best_match_spec (4/5) "Saka" ["Bukayo Saka"] (by norm_num)

end PlayerMatcher

namespace AgentPipeline

/-- When every attempt fails (the agent returns and the validator rejects,
or the agent raises a non-interrupt exception), the retry loop runs all
remaining attempts, makes one agent invocation per attempt, and ends in the
typed exhaustion failure carrying the agent's name and the formatted
last-error message. -/
theorem retryLoop_exhausts {V : Type} (agent_name : String)
    (agent : Nat → AgentOutcome V) (validator : V → Bool) (max_retries : Nat)
    (hyp : ((∀ n, ∃ v, agent n = AgentOutcome.ok v) ∧ ∀ v, validator v = false) ∨
      (∀ n, ∃ msg, agent n = AgentOutcome.exn false msg)) :
    ∀ (fuel attempt : Nat) (err : Option String) (calls : Nat),
      max_retries + 1 - attempt = fuel →
      ∃ last_err,
        retryLoop agent_name agent validator max_retries attempt err calls =
          (.error (.exhausted agent_name (exhaustMessage max_retries last_err)),
            calls + fuel) := by
  intro fuel
  induction fuel with
  | zero =>
    intro attempt err calls hfuel
    have hgt : max_retries < attempt := by omega
    refine ⟨err, ?_⟩
    rw [retryLoop, dif_pos hgt, Nat.add_zero]
  | succ fuel ih =>
    intro attempt err calls hfuel
    have hle : ¬ max_retries < attempt := by omega
    rw [retryLoop, dif_neg hle]
    rcases hyp with ⟨hok, hval⟩ | hexn
    · obtain ⟨v, hv⟩ := hok attempt
      obtain ⟨e, he⟩ := ih (attempt + 1) (some "Invalid response structure")
        (calls + 1) (by omega)
      refine ⟨e, ?_⟩
      rw [hv]
      simp only [hval v]
      rw [if_neg Bool.false_ne_true, he, Nat.add_assoc, Nat.add_comm 1 fuel]
    · obtain ⟨msg, hmsg⟩ := hexn attempt
      obtain ⟨e, he⟩ := ih (attempt + 1) (some msg) (calls + 1) (by omega)
      refine ⟨e, ?_⟩
      rw [hmsg]
      show retryLoop agent_name agent validator max_retries (attempt + 1)
          (some msg) (calls + 1) = _
      rw [he, Nat.add_assoc, Nat.add_comm 1 fuel]

/-- C8: for every agent function and every validator that always returns
false (and likewise an agent that always raises a non-interrupt exception),
`_run_agent_with_retry` invokes the agent exactly `max_retries` times and
then raises the typed exhaustion failure `AgentResponseError`, carrying the
failing agent's name and the formatted last-error message, propagated to the
caller rather than swallowed. -/
theorem run_agent_with_retry_exhausts {V : Type} (agent_name : String)
    (agent : Nat → AgentOutcome V) (validator : V → Bool) (max_retries : Nat)
    (hyp : ((∀ n, ∃ v, agent n = AgentOutcome.ok v) ∧ ∀ v, validator v = false) ∨
      (∀ n, ∃ msg, agent n = AgentOutcome.exn false msg)) :
    ∃ last_err,
      run_agent_with_retry agent_name agent validator max_retries =
        (.error (.exhausted agent_name (exhaustMessage max_retries last_err)),
          max_retries) := by
  obtain ⟨e, he⟩ := retryLoop_exhausts agent_name agent validator max_retries hyp
    max_retries 1 none 0 (by omega)
  exact ⟨e, by rw [run_agent_with_retry, he, Nat.zero_add]⟩

/-- Witness for C8 at a concrete input: a validator that always rejects and
an agent that always returns, with the default three retries. -/
theorem run_agent_with_retry_exhausts_witness :
    ∃ last_err,
      run_agent_with_retry "Research Agent (Arsenal)"
          (fun _ => AgentOutcome.ok (0 : Nat)) (fun _ => false) 3 =
        (.error (.exhausted "Research Agent (Arsenal)"
          (exhaustMessage 3 last_err)), 3) :=
  run_agent_with_retry_exhausts "Research Agent (Arsenal)"
    (fun _ => AgentOutcome.ok (0 : Nat)) (fun _ => false) 3
    (Or.inl ⟨fun _ => ⟨0, rfl⟩, fun _ => rfl⟩)

end AgentPipeline

namespace GrokClient

/-- C1: evaluation of `chat_with_streaming` at the failing input.  A
scripted model that issues one bound client-side tool call on each of 11
consecutive turns drives the session through 11 turns even though
`max_iterations = 10`: the `while True:` loop never consults the cap, so the
cap does not bound the number of turns.  The part of the claim the code does
satisfy is also evaluated: termination occurs exactly when a turn yields
zero client-side calls, and in the two-turn script the bound executor runs
exactly once with turn-1's arguments. -/
theorem chat_with_streaming_ignores_cap :
    (chat_with_streaming 10 registry0 (List.replicate 11 localTurn)).turns = 11 ∧
      10 < 11 ∧
      chat_with_streaming 10 registry0 [localTurn, finalTurn] =
        .done 2 "final answer" [("get_team_roster", "args1", "roster:args1")] :=
  ⟨by decide, by decide, by decide⟩

end GrokClient

namespace Pipeline

/-- C2: evaluation of `run_async` at the failing input.  With two fixtures
whose first agent chain fails irrecoverably, the exception propagates out of
the fixture loop: the run aborts with the error, the second fixture is never
processed, and no summary is produced — the loop has no `try`/`except`, and
`run_agents_for_fixture` re-raises. -/
theorem run_async_aborts_on_bad_fixture :
    run_async badAgents ["Arsenal vs Brentford", "Chelsea vs Fulham"] =
      (.error "Research Agent (Arsenal) failed: Max retries (3) exhausted. Last error: Invalid response structure",
        ["Arsenal vs Brentford"]) := by
  rfl

/-- C3: evaluation of the orchestrator body at the failing state.  With the
alert store already holding an alert for the fixture under the current run
id, `run_agents_for_fixture` still invokes the agent chain (invocation count
1, not 0) and appends duplicate rows to the store: no pre-attempt
idempotency check against the store exists in the source. -/
theorem run_agents_reinvokes_despite_persisted_alerts :
    (run_agents_body "run1" agents0 store0 "Arsenal vs Brentford").2.2 = 1 ∧
      (run_agents_body "run1" agents0 store0 "Arsenal vs Brentford").2.1 =
        store0 ++ [⟨"run1", "Arsenal vs Brentford", alert0⟩] :=
  ⟨rfl, rfl⟩

end Pipeline

namespace SharkAgent

/-- C4 counterexample: a model response whose JSON array lists the same
player twice is parsed into two `PlayerAlert`s for that player —
`_parse_response` performs no deduplication, so the returned list is not
duplicate-free for every model response. -/
theorem parse_response_duplicate_players :
    ((parse_response dupResponse ctx0).map
        (fun a => a.player_name)).count "Viktor Gyokeres" = 2 ∧
      ¬ ((parse_response dupResponse ctx0).map
        (fun a => a.player_name)).Nodup := by
  constructor
  · decide
  · decide

/-- A successful item conversion carries the item's `player_name` string
verbatim. -/
theorem itemToAlert_name (ctx : TeamContext) (v : JValue) (a : PlayerAlert)
    (h : itemToAlert ctx v = some a) : a.player_name = itemName v := by
  cases v with
  | obj fields =>
    simp only [itemToAlert] at h
    split at h
    · exact Option.noConfusion h
    · split at h
      · exact Option.noConfusion h
      · split at h
        · exact Option.noConfusion h
        · injection h with h
          rw [← h]
          simp [itemName, *]
  | null => exact Option.noConfusion h
  | bool b => exact Option.noConfusion h
  | num n => exact Option.noConfusion h
  | str s => exact Option.noConfusion h
  | arr xs => exact Option.noConfusion h

/-- A successful parse returns one alert per item, carrying the items'
`player_name` strings in order. -/
theorem itemsToAlerts_names (ctx : TeamContext) :
    ∀ (items : List JValue) (alerts : List PlayerAlert),
      itemsToAlerts ctx items = some alerts →
      alerts.map (fun a => a.player_name) = items.map itemName := by
  intro items
  induction items with
  | nil =>
    intro alerts h
    simp only [itemsToAlerts] at h
    injection h with h
    rw [← h]
    rfl
  | cons v vs ih =>
    intro alerts h
    simp only [itemsToAlerts] at h
    split at h
    · exact Option.noConfusion h
    · split at h
      · exact Option.noConfusion h
      · injection h with h
        rw [← h]
        simp only [List.map_cons]
        rename_i x1 av hav x2 restv hrestv
        rw [itemToAlert_name ctx v av hav, ih restv hrestv]

/-- C4 (amended): the parsing performs no deduplication — it returns one
`PlayerAlert` per entry of the model's JSON array, carrying that entry's
`player_name` verbatim (or `[]` on any parse failure) — so the alert list
has at most one alert per distinct player exactly when the model's response
itself mentions each player at most once.  Stated: duplicate-freedom of the
response's player names transfers to the parsed alert list. -/
theorem parse_response_nodup (content : Option JValue) (ctx : TeamContext)
    (h : (responseNames content).Nodup) :
    ((parse_response content ctx).map (fun a => a.player_name)).Nodup := by
  cases content with
  | none => simp [parse_response]
  | some data =>
    unfold parse_response
    cases hi : itemsToAlerts ctx (itemsOf data) with
    | none => simp [hi]
    | some alerts =>
      simp only [hi]
      rw [itemsToAlerts_names ctx (itemsOf data) alerts hi]
      simpa [responseNames] using h

/-- Witness for the amended C4 theorem: a response naming two distinct
players parses into a duplicate-free alert list. -/
theorem parse_response_nodup_witness :
    ((parse_response okResponse ctx0).map (fun a => a.player_name)).Nodup :=
  parse_response_nodup okResponse ctx0 (by decide)

end SharkAgent

namespace ProjectionsService

/-- The matching loop preserves the projection columns of every row, in
order. -/
theorem matchRows_base {α : Type} :
    ∀ (rows : List (ProjRow α)) (d : AlertDict),
      (matchRows rows d).1.map rowBase = rows.map rowBase := by
  intro rows
  induction rows with
  | nil => intro d; rfl
  | cons r rs ih =>
    intro d
    simp only [matchRows]
    split
    · simp only [List.map_cons]
      rw [ih]
    · simp only [List.map_cons]
      rw [ih]
      rfl

/-- `dictCount` of a cons cell. -/
theorem dictCount_cons (k : String) (l : List PlayerAlert) (rest : AlertDict)
    (a : PlayerAlert) :
    dictCount ((k, l) :: rest) a = l.count a + dictCount rest a := by
  simp [dictCount]

/-- Appending one alert to its bucket adds exactly its one occurrence. -/
theorem dictAppend_count (d : AlertDict) (k : String) (x a : PlayerAlert) :
    dictCount (dictAppend d k x) a =
      dictCount d a + (if a = x then 1 else 0) := by
  induction d with
  | nil =>
    by_cases hax : a = x <;>
      simp [dictAppend, dictCount, List.count_cons, beq_iff_eq, hax]
  | cons kv rest ih =>
    obtain ⟨k0, l0⟩ := kv
    by_cases hk : k0 = k
    · by_cases hax : a = x
      · simp [dictAppend, hk, dictCount_cons, List.count_append,
          List.count_cons, beq_iff_eq, hax]
        omega
      · simp [dictAppend, hk, dictCount_cons, List.count_append,
          List.count_cons, beq_iff_eq, hax]
    · simp only [dictAppend, hk, if_false, ite_false, dictCount_cons, ih]
      omega

/-- Building the per-fixture dict preserves multiplicities. -/
theorem alertsByFixture_count (alerts : List PlayerAlert) (a : PlayerAlert) :
    dictCount (alertsByFixture alerts) a = alerts.count a := by
  have key : ∀ (l : List PlayerAlert) (d : AlertDict),
      dictCount (l.foldl (fun d0 x => dictAppend d0 (fixtureKey x.fixture) x) d) a =
        dictCount d a + l.count a := by
    intro l
    induction l with
    | nil => intro d; simp
    | cons x l ih =>
      intro d
      rw [List.foldl_cons, ih, dictAppend_count]
      by_cases hax : a = x
      · simp [List.count_cons, beq_iff_eq, hax]
        omega
      · simp [List.count_cons, beq_iff_eq, hax]
  rw [alertsByFixture, key alerts []]
  simp [dictCount]

/-- Replacing an existing bucket trades its old contents for the new. -/
theorem dictSet_count (d : AlertDict) (k : String) (l : List PlayerAlert)
    (a : PlayerAlert) (h : dictGet d k ≠ []) :
    dictCount (dictSet d k l) a + (dictGet d k).count a =
      dictCount d a + l.count a := by
  induction d with
  | nil => simp [dictGet] at h
  | cons kv rest ih =>
    obtain ⟨k0, l0⟩ := kv
    by_cases hk : k0 = k
    · simp only [dictSet, dictGet, hk, if_true, ite_true, dictCount_cons]
      omega
    · have h' : dictGet rest k ≠ [] := by simpa [dictGet, hk] using h
      simp only [dictSet, dictGet, hk, if_false, ite_false, dictCount_cons]
      have := ih h'
      omega

/-- Conservation of alert multiplicities through the matching loop: the
consumed alerts plus what is left in the dict account exactly for the dict's
initial contents (each consumption removes the consumed alert from its
bucket). -/
theorem matchRows_consumed {α : Type} :
    ∀ (rows : List (ProjRow α)) (d : AlertDict) (a : PlayerAlert),
      (matchRows rows d).2.2.count a + dictCount (matchRows rows d).2.1 a =
        dictCount d a := by
  intro rows
  induction rows with
  | nil => intro d a; simp [matchRows]
  | cons r rs ih =>
    intro d a
    simp only [matchRows]
    split
    · simpa using ih d a
    · rename_i a0 hf
      have ha0 : a0 ∈ dictGet d (fixtureKey r.fixture) :=
        List.mem_of_find?_eq_some hf
      have hne : dictGet d (fixtureKey r.fixture) ≠ [] := by
        intro hh
        rw [hh] at ha0
        exact absurd ha0 (List.not_mem_nil a0)
      have hset := dictSet_count d (fixtureKey r.fixture)
        ((dictGet d (fixtureKey r.fixture)).erase a0) a hne
      have herase := List.count_erase a a0 (dictGet d (fixtureKey r.fixture))
      have hih := ih (dictSet d (fixtureKey r.fixture)
        ((dictGet d (fixtureKey r.fixture)).erase a0)) a
      have hposcount : 0 < (dictGet d (fixtureKey r.fixture)).count a0 :=
        List.count_pos_iff.mpr ha0
      simp only [List.count_cons, beq_iff_eq] at herase ⊢
      by_cases hax : a = a0
      · subst hax
        rw [if_pos rfl] at herase ⊢
        omega
      · have hax' : ¬ a0 = a := fun h => hax h.symm
        rw [if_neg hax'] at herase
        rw [if_neg hax']
        omega

/-- C5: each alert attaches to at most one projection row.  Counted with
multiplicity, the alerts consumed by one `enrich_with_alerts` run (one
consumption per matched row, each row searching only its own fixture's pool
and taking its first `is_match` hit) never exceed the supplied alerts: an
alert is removed from the pool once consumed, so it can never attach to two
distinct rows. -/
theorem enrich_consumed_count {α : Type} (proj : Frame α)
    (alerts : List PlayerAlert) (a : PlayerAlert) :
    (enrichConsumed proj alerts).count a ≤ alerts.count a := by
  unfold enrichConsumed
  by_cases hcond : (proj.rows.isEmpty || alerts.isEmpty) = true
  · simp [hcond]
  · rw [if_neg (by simpa using hcond)]
    have hinv := matchRows_consumed (proj.rows.map initRow)
      (alertsByFixture alerts) a
    have hbuild := alertsByFixture_count alerts a
    omega

/-- C10: `enrich_with_alerts` is pure in its inputs (the source copies the
DataFrame and builds fresh per-fixture bucket lists, so the caller's frame
and alert list are untouched — inherent in this embedding) and preserves
every row's pre-existing projection columns in order; the only columns it
ever adds are `alert_level` and `alert_description` (whenever the frame is
non-empty) and `alert_matched` (when additionally the alert list is
non-empty); an empty frame is returned unchanged. -/
theorem enrich_with_alerts_frame {α : Type} (proj : Frame α)
    (alerts : List PlayerAlert) :
    (enrich_with_alerts proj alerts).rows.map rowBase = proj.rows.map rowBase ∧
    (enrich_with_alerts proj alerts).hasAlertCols =
      (if proj.rows.isEmpty then proj.hasAlertCols else true) ∧
    (enrich_with_alerts proj alerts).hasMatchedCol =
      (if proj.rows.isEmpty then proj.hasMatchedCol
       else if alerts.isEmpty then proj.hasMatchedCol else true) := by
  unfold enrich_with_alerts
  by_cases hp : proj.rows.isEmpty
  · simp [hp]
  · by_cases ha : alerts.isEmpty
    · refine ⟨?_, by simp [hp, ha], by simp [hp, ha]⟩
      simp only [hp, ha, Bool.false_eq_true, if_false, if_true, ite_false,
        ite_true, List.map_map]
      apply List.map_congr_left
      intro r _
      rfl
    · refine ⟨?_, by simp [hp, ha], by simp [hp, ha]⟩
      simp only [hp, ha, Bool.false_eq_true, if_false, ite_false]
      rw [matchRows_base, List.map_map]
      apply List.map_congr_left
      intro r _
      rfl

/-- Equal projection columns force equal initialized rows. -/
theorem map_initRow_congr {α : Type} :
    ∀ (l1 l2 : List (ProjRow α)), l1.map rowBase = l2.map rowBase →
      l1.map initRow = l2.map initRow := by
  intro l1
  induction l1 with
  | nil =>
    intro l2 h
    cases l2 with
    | nil => rfl
    | cons r2 rs2 => simp at h
  | cons r rs ih =>
    intro l2 h
    cases l2 with
    | nil => simp at h
    | cons r2 rs2 =>
      simp only [List.map_cons, List.cons.injEq] at h ⊢
      obtain ⟨hr, ht⟩ := h
      refine ⟨?_, ih rs2 ht⟩
      cases r
      cases r2
      simp only [rowBase, Prod.mk.injEq] at hr
      simp [initRow, hr.1, hr.2.1, hr.2.2]

/-- C6: `enrich_with_alerts` is idempotent.  In this pure embedding a second
run over the very same inputs is literally the same value (the source
neither mutates the caller's DataFrame — it works on a copy — nor the
caller's alert list — the per-fixture buckets are fresh lists); the theorem
proves the stronger stability fact that re-running the enrichment over its
own output with the same alerts changes nothing. -/
theorem enrich_with_alerts_idempotent {α : Type} (proj : Frame α)
    (alerts : List PlayerAlert) :
    enrich_with_alerts (enrich_with_alerts proj alerts) alerts =
      enrich_with_alerts proj alerts := by
  by_cases hp : proj.rows.isEmpty
  · have h1 : enrich_with_alerts proj alerts = proj := by
      unfold enrich_with_alerts
      simp [hp]
    rw [h1, h1]
  · by_cases ha : alerts.isEmpty
    · have h1 : enrich_with_alerts proj alerts =
          ⟨proj.rows.map clearAlertCols, true, proj.hasMatchedCol⟩ := by
        unfold enrich_with_alerts
        simp [hp, ha]
      rw [h1]
      unfold enrich_with_alerts
      have hne : (proj.rows.map clearAlertCols).isEmpty = false := by
        cases hrows : proj.rows with
        | nil => rw [hrows] at hp; simp at hp
        | cons x xs => simp [hrows]
      simp only [hne, ha, Bool.false_eq_true, if_false, if_true, ite_false,
        ite_true, List.map_map]
      have hrows : List.map (clearAlertCols ∘ clearAlertCols) proj.rows =
          List.map clearAlertCols proj.rows :=
        List.map_congr_left (fun r _ => rfl)
      rw [hrows]
    · have h1 : enrich_with_alerts proj alerts =
          ⟨(matchRows (proj.rows.map initRow) (alertsByFixture alerts)).1,
            true, true⟩ := by
        unfold enrich_with_alerts
        simp [hp, ha]
      rw [h1]
      unfold enrich_with_alerts
      have hlen : (matchRows (proj.rows.map initRow)
          (alertsByFixture alerts)).1.length = proj.rows.length := by
        have hb := congrArg List.length
          (matchRows_base (proj.rows.map initRow) (alertsByFixture alerts))
        simpa using hb
      have hne : ((matchRows (proj.rows.map initRow)
          (alertsByFixture alerts)).1).isEmpty = false := by
        rcases hl : (matchRows (proj.rows.map initRow)
            (alertsByFixture alerts)).1 with _ | ⟨x, xs⟩
        · rw [hl] at hlen
          have hnil : proj.rows = [] := by
            have h0 : proj.rows.length = 0 := by simpa using hlen.symm
            exact List.length_eq_zero.mp h0
          rw [hnil] at hp
          simp at hp
        · simp
      simp only [hne, ha, Bool.false_eq_true, if_false, ite_false]
      have hX : (matchRows (proj.rows.map initRow)
            (alertsByFixture alerts)).1.map initRow =
          proj.rows.map initRow := by
        apply map_initRow_congr
        rw [matchRows_base, List.map_map]
        apply List.map_congr_left
        intro r _
        rfl
      rw [hX]

end ProjectionsService

end PlayerRisk
